import Mathlib

/-!
Verification of the GoLex front end (lexer, recursive-descent parser,
AST printer, diagnostics) against its natural-language specification.

The Go source is shallowly embedded: each Go function becomes a Lean
definition over explicit state; Go panics and parse errors become
explicit error results; Go `float64` literal values are modelled as
exact rationals (no claim below depends on floating-point rounding);
recursion that Go drives by a mutable cursor is driven by an explicit
fuel parameter, with fuel exhaustion a distinguished outcome that
sufficient fuel never reaches.
-/

namespace GoLex

/-! ## Token model (src/token/token.go) -/

/-- Go `token.Type` is a plain string (`type Type string`). -/
abbrev TokenType := String

/-- Dynamic values stored in Go `interface{}` fields: token literals and
the evaluator's value domain `Nil | Boolean | Number | String`.
Go `float64` is modelled as an exact rational. -/
inductive GoValue where
  | nil
  | bool (b : Bool)
  | num (q : ℚ)
  | str (s : String)
deriving DecidableEq, Repr

/-- Go `token.Token`: type, lexeme, literal, line, column. -/
structure Token where
  type : TokenType
  lexeme : String
  literal : GoValue
  line : Nat
  column : Nat
deriving DecidableEq, Repr

/-! Token type constants from src/token/token.go. -/

def LEFT_PAREN : TokenType := "("
def RIGHT_PAREN : TokenType := ")"
def LEFT_BRACE : TokenType := "\x7b"
def RIGHT_BRACE : TokenType := "\x7d"
def COMMA : TokenType := ","
def DOT : TokenType := "."
def MINUS : TokenType := "-"
def PLUS : TokenType := "+"
def SEMICOLON : TokenType := ";"
def SLASH : TokenType := "/"
def STAR : TokenType := "*"
def QUESTION : TokenType := "?"
def COLON : TokenType := ":"
def BANG : TokenType := "!"
def BANG_EQUAL : TokenType := "!="
def EQUAL : TokenType := "="
def EQUAL_EQUAL : TokenType := "=="
def GREATER : TokenType := ">"
def GREATER_EQUAL : TokenType := ">="
def LESS : TokenType := "<"
def LESS_EQUAL : TokenType := "<="
def IDENTIFIER : TokenType := "IDENTIFIER"
def STRING : TokenType := "STRING"
def NUMBER : TokenType := "NUMBER"
def AND : TokenType := "AND"
def CLASS : TokenType := "CLASS"
def ELSE : TokenType := "ELSE"
def FALSE : TokenType := "FALSE"
def FUN : TokenType := "FUN"
def FOR : TokenType := "FOR"
def IF : TokenType := "IF"
def NULL : TokenType := "NULL"
def OR : TokenType := "OR"
def PRINT : TokenType := "PRINT"
def RETURN : TokenType := "RETURN"
def SUPER : TokenType := "SUPER"
def THIS : TokenType := "THIS"
def TRUE : TokenType := "TRUE"
def VAR : TokenType := "VAR"
def WHILE : TokenType := "WHILE"
def ILLEGAL : TokenType := "ILLEGAL"
def EOF : TokenType := "EOF"

/-- Go `token.Keywords`: the reserved-word map, as an association list. -/
def Keywords : List (String × TokenType) :=
  [("and", AND), ("class", CLASS), ("else", ELSE), ("false", FALSE),
   ("for", FOR), ("fun", FUN), ("if", IF), ("null", NULL),
   ("or", OR), ("print", PRINT), ("return", RETURN), ("super", SUPER),
   ("this", THIS), ("true", TRUE), ("var", VAR), ("while", WHILE)]

/-! ## Structured parse error (package error, src/unnamed/part_005) -/

/-- Go `error.Error`: message plus the offending token. -/
structure Error where
  message : String
  token : Token
deriving DecidableEq, Repr

/-- Go `error.New(t, message)`. -/
def ErrorNew (t : Token) (message : String) : Error :=
  { message := message, token := t }

/-- Go `(e *Error) Error() string`: renders `[Pos L:C] Error at end: M`
for EOF tokens and `[Pos L:C] Error at 'X': M` otherwise (`fmt.Sprintf`
with `%d` on ints and `%s` on strings becomes string concatenation). -/
def Error.render (e : Error) : String :=
  if e.token.type = EOF then
    "[Pos " ++ toString e.token.line ++ ":" ++ toString e.token.column ++
      "] Error at end: " ++ e.message
  else
    "[Pos " ++ toString e.token.line ++ ":" ++ toString e.token.column ++
      "] Error at '" ++ e.token.lexeme ++ "': " ++ e.message

/-! ## AST (package expr)

Modelled from the spec: the `expr` package itself is not under src/ (only
its callers — parser, printer, tests — are).  Spec section 3 lists the
variants; the parser under verification produces only `Literal`,
`Grouping`, `Unary`, `Binary` and (in its ternary-capable revision)
`Ternary`, so the remaining statement-oriented variants (`Variable`,
`Assign`, `Logical`, `Call`, `Get`, `Set`, `This`, `Super`), which no
claim touches and no embedded function can produce, are omitted. -/
inductive Expr where
  | Literal (value : GoValue)
  | Grouping (expression : Expr)
  | Unary (operator : Token) (right : Expr)
  | Binary (left : Expr) (operator : Token) (right : Expr)
  | Ternary (condition : Expr) (trueBranch : Expr) (falseBranch : Expr)
deriving DecidableEq, Repr

/-! ## Parser state and cursor primitives (src/parser/parser.go) -/

/-- Go `parser.Parser`: the token slice and the forward cursor. -/
structure Parser where
  tokens : List Token
  current : Nat
deriving DecidableEq, Repr

/-- Go `parser.New(tokens)`. -/
def ParserNew (tokens : List Token) : Parser :=
  { tokens := tokens, current := 0 }

/-- Stand-in result for a Go index-out-of-range panic on `p.tokens[i]`.
Unreachable for EOF-terminated input (the invariant of claim C7); typed
EOF so that an out-of-range cursor cannot advance further. -/
def outOfRangeToken : Token :=
  { type := EOF, lexeme := "", literal := .nil, line := 0, column := 0 }

/-- Go `p.peek()`: the current token yet to be consumed. -/
def Parser.peek (p : Parser) : Token :=
  p.tokens.getD p.current outOfRangeToken

/-- Go `p.previous()`: the token just consumed. -/
def Parser.previous (p : Parser) : Token :=
  p.tokens.getD (p.current - 1) outOfRangeToken

/-- Go `p.isAtEnd()`. -/
def Parser.isAtEnd (p : Parser) : Bool :=
  p.peek.type == EOF

/-- Go `p.advance()`: increment the cursor unless at end, then return
the previous token together with the new state. -/
def Parser.advance (p : Parser) : Token × Parser :=
  let p' := if p.isAtEnd then p else { p with current := p.current + 1 }
  (p'.previous, p')

/-- Go `p.check(t)`. -/
def Parser.check (p : Parser) (t : TokenType) : Bool :=
  if p.isAtEnd then false else p.peek.type == t

/-- Go `p.match(types...)` (named `matchTypes`: `match` is reserved in
Lean): try each type in order, consuming the current token on the first
hit. -/
def Parser.matchTypes (p : Parser) : List TokenType → Bool × Parser
  | [] => (false, p)
  | t :: ts => if p.check t then (true, (p.advance).2) else p.matchTypes ts

/-- Go `p.consume(t, message)`: advance past a token of the expected
type or fail with a parse error carrying the current token. -/
def Parser.consume (p : Parser) (t : TokenType) (message : String) :
    Except Error (Token × Parser) :=
  if p.check t then .ok p.advance else .error (ErrorNew p.peek message)

/-- Outcome of one grammar function: a subtree with the successor state,
a propagated parse error (Go panic with `*error.Error`), or fuel
exhaustion (unreachable with enough fuel; Go loops directly). -/
inductive PResult where
  | ok (e : Expr) (p : Parser)
  | err (e : Error)
  | fail
deriving DecidableEq, Repr

/-! ## The grammar functions (src/parser/parser.go)

Each Go rule function becomes a fuel-indexed Lean function; the
left-associative `for p.match(...)` loops become companion `...Loop`
functions.  Fuel only bounds recursion depth: with fuel at least one
more than the number of grammar-function calls the Go code would make,
the result is identical to Go's. -/

mutual

/-- Go `p.expression()`: `expression → equality`. -/
def expression (fuel : Nat) (p : Parser) : PResult :=
  match fuel with
  | 0 => .fail
  | fuel + 1 => equality fuel p

/-- Go `p.equality()`: `equality → comparison ( ("!=" | "==") comparison )*`. -/
def equality (fuel : Nat) (p : Parser) : PResult :=
  match fuel with
  | 0 => .fail
  | fuel + 1 =>
    match comparison fuel p with
    | .ok e p => equalityLoop fuel e p
    | r => r

/-- Loop of Go `p.equality()`: rewrap the running left operand while
equality operators keep matching (left-associative). -/
def equalityLoop (fuel : Nat) (e : Expr) (p : Parser) : PResult :=
  match fuel with
  | 0 => .fail
  | fuel + 1 =>
    match p.matchTypes [BANG_EQUAL, EQUAL_EQUAL] with
    | (true, p') =>
      let operator := p'.previous
      match comparison fuel p' with
      | .ok right p'' => equalityLoop fuel (.Binary e operator right) p''
      | r => r
    | (false, p') => .ok e p'

/-- Go `p.comparison()`: `comparison → term ( (">" | ">=" | "<" | "<=") term )*`. -/
def comparison (fuel : Nat) (p : Parser) : PResult :=
  match fuel with
  | 0 => .fail
  | fuel + 1 =>
    match term fuel p with
    | .ok e p => comparisonLoop fuel e p
    | r => r

/-- Loop of Go `p.comparison()`. -/
def comparisonLoop (fuel : Nat) (e : Expr) (p : Parser) : PResult :=
  match fuel with
  | 0 => .fail
  | fuel + 1 =>
    match p.matchTypes [GREATER, GREATER_EQUAL, LESS, LESS_EQUAL] with
    | (true, p') =>
      let operator := p'.previous
      match term fuel p' with
      | .ok right p'' => comparisonLoop fuel (.Binary e operator right) p''
      | r => r
    | (false, p') => .ok e p'

/-- Go `p.term()`: `term → factor ( ("-" | "+") factor )*`. -/
def term (fuel : Nat) (p : Parser) : PResult :=
  match fuel with
  | 0 => .fail
  | fuel + 1 =>
    match factor fuel p with
    | .ok e p => termLoop fuel e p
    | r => r

/-- Loop of Go `p.term()`. -/
def termLoop (fuel : Nat) (e : Expr) (p : Parser) : PResult :=
  match fuel with
  | 0 => .fail
  | fuel + 1 =>
    match p.matchTypes [MINUS, PLUS] with
    | (true, p') =>
      let operator := p'.previous
      match factor fuel p' with
      | .ok right p'' => termLoop fuel (.Binary e operator right) p''
      | r => r
    | (false, p') => .ok e p'

/-- Go `p.factor()`: `factor → unary ( ("/" | "*") unary )*`. -/
def factor (fuel : Nat) (p : Parser) : PResult :=
  match fuel with
  | 0 => .fail
  | fuel + 1 =>
    match unary fuel p with
    | .ok e p => factorLoop fuel e p
    | r => r

/-- Loop of Go `p.factor()`. -/
def factorLoop (fuel : Nat) (e : Expr) (p : Parser) : PResult :=
  match fuel with
  | 0 => .fail
  | fuel + 1 =>
    match p.matchTypes [SLASH, STAR] with
    | (true, p') =>
      let operator := p'.previous
      match unary fuel p' with
      | .ok right p'' => factorLoop fuel (.Binary e operator right) p''
      | r => r
    | (false, p') => .ok e p'

/-- Go `p.unary()`: `unary → ("!" | "-") unary | primary`. -/
def unary (fuel : Nat) (p : Parser) : PResult :=
  match fuel with
  | 0 => .fail
  | fuel + 1 =>
    match p.matchTypes [BANG, MINUS] with
    | (true, p') =>
      let operator := p'.previous
      match unary fuel p' with
      | .ok right p'' => .ok (.Unary operator right) p''
      | r => r
    | (false, p') => primary fuel p'

/-- Go `p.primary()`: literals, keywords, grouping; otherwise the
`Expect expression.` parse error at the current unconsumed token. -/
def primary (fuel : Nat) (p : Parser) : PResult :=
  match fuel with
  | 0 => .fail
  | fuel + 1 =>
    match p.matchTypes [FALSE] with
    | (true, p1) => .ok (.Literal (.bool false)) p1
    | (false, p1) =>
    match p1.matchTypes [TRUE] with
    | (true, p2) => .ok (.Literal (.bool true)) p2
    | (false, p2) =>
    match p2.matchTypes [NULL] with
    | (true, p3) => .ok (.Literal .nil) p3
    | (false, p3) =>
    match p3.matchTypes [NUMBER, STRING] with
    | (true, p4) => .ok (.Literal p4.previous.literal) p4
    | (false, p4) =>
    match p4.matchTypes [LEFT_PAREN] with
    | (true, p5) =>
      match expression fuel p5 with
      | .ok e p6 =>
        match p6.consume RIGHT_PAREN "Expect ')' after expression." with
        | .ok (_, p7) => .ok (.Grouping e) p7
        | .error er => .err er
      | r => r
    | (false, p5) => .err (ErrorNew p5.peek "Expect expression.")

end

/-- Outcome of Go `p.Parse()`: the expression alone (Go returns
`expr.Expr`, re-panicking `*error.Error` unchanged through its
`recover` wrapper). -/
inductive ParseOutcome where
  | ok (e : Expr)
  | err (e : Error)
  | fail
deriving DecidableEq, Repr

/-- Go `p.Parse()`: parse one expression from the current state. -/
def Parser.Parse (fuel : Nat) (p : Parser) : ParseOutcome :=
  match expression fuel p with
  | .ok e _ => .ok e
  | .err er => .err er
  | .fail => .fail

/-- Parse a token list from the start, as `parser.New(tokens).Parse()`. -/
def Parse (fuel : Nat) (tokens : List Token) : ParseOutcome :=
  (ParserNew tokens).Parse fuel

/-! ## The ternary-capable parser revision (namespace `TP`)

Modelled from the spec: the parser revision that supports the ternary
conditional is not under src/ — only its test (`TestParser_InvalidCode`
and the ternary cases of `TestParser_Expressions`) is.  Spec section 4.2:
the ternary sits above equality in precedence, its false branch is
parsed recursively as a full ternary-capable expression (making nested
ternaries right-associative in the false position), and a missing `:`
after the true branch raises the parse error
"Expect ':' after true branch of ternary expression.".  All rules below
the ternary are those of src/parser/parser.go, with grouping recursing
into the ternary-capable `expression`. -/

namespace TP

mutual

/-- Modelled from the spec: `expression → ternary` in the ternary-capable
revision. -/
def expression (fuel : Nat) (p : Parser) : PResult :=
  match fuel with
  | 0 => .fail
  | fuel + 1 => ternary fuel p

/-- Modelled from the spec: `ternary → equality ( "?" expression ":"
expression )?`, the false (and true) branch re-entering the full
ternary-capable expression; a missing `:` is the distinct parse error of
claim C1. -/
def ternary (fuel : Nat) (p : Parser) : PResult :=
  match fuel with
  | 0 => .fail
  | fuel + 1 =>
    match equality fuel p with
    | .ok condition p1 =>
      match p1.matchTypes [QUESTION] with
      | (true, p2) =>
        match expression fuel p2 with
        | .ok trueBranch p3 =>
          match p3.consume COLON
              "Expect ':' after true branch of ternary expression." with
          | .ok (_, p4) =>
            match expression fuel p4 with
            | .ok falseBranch p5 => .ok (.Ternary condition trueBranch falseBranch) p5
            | r => r
          | .error er => .err er
        | r => r
      | (false, p2) => .ok condition p2
    | r => r

/-- As Go `p.equality()` in src/parser/parser.go. -/
def equality (fuel : Nat) (p : Parser) : PResult :=
  match fuel with
  | 0 => .fail
  | fuel + 1 =>
    match comparison fuel p with
    | .ok e p => equalityLoop fuel e p
    | r => r

/-- Loop of `equality`. -/
def equalityLoop (fuel : Nat) (e : Expr) (p : Parser) : PResult :=
  match fuel with
  | 0 => .fail
  | fuel + 1 =>
    match p.matchTypes [BANG_EQUAL, EQUAL_EQUAL] with
    | (true, p') =>
      let operator := p'.previous
      match comparison fuel p' with
      | .ok right p'' => equalityLoop fuel (.Binary e operator right) p''
      | r => r
    | (false, p') => .ok e p'

/-- As Go `p.comparison()`. -/
def comparison (fuel : Nat) (p : Parser) : PResult :=
  match fuel with
  | 0 => .fail
  | fuel + 1 =>
    match term fuel p with
    | .ok e p => comparisonLoop fuel e p
    | r => r

/-- Loop of `comparison`. -/
def comparisonLoop (fuel : Nat) (e : Expr) (p : Parser) : PResult :=
  match fuel with
  | 0 => .fail
  | fuel + 1 =>
    match p.matchTypes [GREATER, GREATER_EQUAL, LESS, LESS_EQUAL] with
    | (true, p') =>
      let operator := p'.previous
      match term fuel p' with
      | .ok right p'' => comparisonLoop fuel (.Binary e operator right) p''
      | r => r
    | (false, p') => .ok e p'

/-- As Go `p.term()`. -/
def term (fuel : Nat) (p : Parser) : PResult :=
  match fuel with
  | 0 => .fail
  | fuel + 1 =>
    match factor fuel p with
    | .ok e p => termLoop fuel e p
    | r => r

/-- Loop of `term`. -/
def termLoop (fuel : Nat) (e : Expr) (p : Parser) : PResult :=
  match fuel with
  | 0 => .fail
  | fuel + 1 =>
    match p.matchTypes [MINUS, PLUS] with
    | (true, p') =>
      let operator := p'.previous
      match factor fuel p' with
      | .ok right p'' => termLoop fuel (.Binary e operator right) p''
      | r => r
    | (false, p') => .ok e p'

/-- As Go `p.factor()`. -/
def factor (fuel : Nat) (p : Parser) : PResult :=
  match fuel with
  | 0 => .fail
  | fuel + 1 =>
    match unary fuel p with
    | .ok e p => factorLoop fuel e p
    | r => r

/-- Loop of `factor`. -/
def factorLoop (fuel : Nat) (e : Expr) (p : Parser) : PResult :=
  match fuel with
  | 0 => .fail
  | fuel + 1 =>
    match p.matchTypes [SLASH, STAR] with
    | (true, p') =>
      let operator := p'.previous
      match unary fuel p' with
      | .ok right p'' => factorLoop fuel (.Binary e operator right) p''
      | r => r
    | (false, p') => .ok e p'

/-- As Go `p.unary()`. -/
def unary (fuel : Nat) (p : Parser) : PResult :=
  match fuel with
  | 0 => .fail
  | fuel + 1 =>
    match p.matchTypes [BANG, MINUS] with
    | (true, p') =>
      let operator := p'.previous
      match unary fuel p' with
      | .ok right p'' => .ok (.Unary operator right) p''
      | r => r
    | (false, p') => primary fuel p'

/-- As Go `p.primary()`; the grouping recurses into the ternary-capable
`expression`. -/
def primary (fuel : Nat) (p : Parser) : PResult :=
  match fuel with
  | 0 => .fail
  | fuel + 1 =>
    match p.matchTypes [FALSE] with
    | (true, p1) => .ok (.Literal (.bool false)) p1
    | (false, p1) =>
    match p1.matchTypes [TRUE] with
    | (true, p2) => .ok (.Literal (.bool true)) p2
    | (false, p2) =>
    match p2.matchTypes [NULL] with
    | (true, p3) => .ok (.Literal .nil) p3
    | (false, p3) =>
    match p3.matchTypes [NUMBER, STRING] with
    | (true, p4) => .ok (.Literal p4.previous.literal) p4
    | (false, p4) =>
    match p4.matchTypes [LEFT_PAREN] with
    | (true, p5) =>
      match expression fuel p5 with
      | .ok e p6 =>
        match p6.consume RIGHT_PAREN "Expect ')' after expression." with
        | .ok (_, p7) => .ok (.Grouping e) p7
        | .error er => .err er
      | r => r
    | (false, p5) => .err (ErrorNew p5.peek "Expect expression.")

end

/-- Go `p.Parse()` of the ternary-capable revision. -/
def Parse (fuel : Nat) (tokens : List Token) : ParseOutcome :=
  match expression fuel (ParserNew tokens) with
  | .ok e _ => .ok e
  | .err er => .err er
  | .fail => .fail

end TP

/-! ## Lexer (src/lexer/lexer.go)

The Go lexer walks the source string by an index `current` and slices
lexemes out as `source[start:current]`.  The embedding walks the
remaining character list instead and rebuilds each lexeme from the
characters the Go code would have consumed; the scanning loop gets fuel
one larger than the source length, which the theorems below prove
sufficient (each `scanToken` call starts with `advance()` and so always
consumes at least one character). -/

/-- Go `l.isDigit(c)`. -/
def isDigit (c : Char) : Bool :=
  '0' ≤ c && c ≤ '9'

/-- Go `l.isAlpha(c)`. -/
def isAlpha (c : Char) : Bool :=
  ('a' ≤ c && c ≤ 'z') || ('A' ≤ c && c ≤ 'Z') || c = '_'

/-- Go `l.isAlphaNumeric(c)`. -/
def isAlphaNumeric (c : Char) : Bool :=
  isAlpha c || isDigit c

/-- Value of a scanned digit string.  Together with `parseNumQ` this
models Go `strconv.ParseFloat` on the `digits("." digits)?` strings the
lexer feeds it, exactly rather than in IEEE-754 (no claim depends on
rounding, and the range-overflow error path needs source text over 300
characters long). -/
def digitsToNat (cs : List Char) : Nat :=
  cs.foldl (fun a c => a * 10 + (c.toNat - 48)) 0

/-- Rational value of `intPart "." fracPart`, i.e.
`intPart.fracPart = (intPart * 10^k + fracPart) / 10^k`. -/
def parseNumQ (intPart fracPart : List Char) : ℚ :=
  mkRat (digitsToNat intPart * 10 ^ fracPart.length + digitsToNat fracPart)
    (10 ^ fracPart.length)

/-- Loop of Go `l.processString()`: consume characters up to (not
including) the closing quote or the end of input, bumping the line
counter at newlines.  Returns the consumed body, the rest, and the
line. -/
def stringBody : List Char → Nat → List Char × List Char × Nat
  | [], line => ([], [], line)
  | c :: rest, line =>
    if c = '"' then ([], c :: rest, line)
    else
      let r := stringBody rest (if c = '\n' then line + 1 else line)
      (c :: r.1, r.2.1, r.2.2)

/-- Loop of Go `l.blockComment()`: consume characters until `*/` is next
or input ends, bumping the line counter at newlines. -/
def blockBody : List Char → Nat → List Char × List Char × Nat
  | [], line => ([], [], line)
  | c :: rest, line =>
    if c = '*' ∧ rest.head? = some '/' then ([], c :: rest, line)
    else
      let r := blockBody rest (if c = '\n' then line + 1 else line)
      (c :: r.1, r.2.1, r.2.2)

/-- Go `token.Keywords` lookup in `l.processIdentifier()`: keyword type,
or IDENTIFIER when absent from the map. -/
def keywordType (text : String) : TokenType :=
  (Keywords.lookup text).getD IDENTIFIER

/-- Go `l.scanToken()`: scan one token starting at character `c` with
`rest` following.  Returns the token produced, if any (whitespace and
comments produce none), the remaining characters, and the line counter.
A produced token's lexeme is `source[start:current]`, i.e. `c` plus
whatever the case consumed; this lexer revision never fills `Column`. -/
def scanToken (c : Char) (rest : List Char) (line : Nat) :
    Option Token × List Char × Nat :=
  let single : TokenType → Option Token × List Char × Nat := fun ty =>
    (some { type := ty, lexeme := c.toString, literal := .nil, line := line, column := 0 },
     rest, line)
  let double : TokenType → Char → Option Token × List Char × Nat := fun ty d =>
    (some { type := ty, lexeme := c.toString ++ d.toString, literal := .nil,
            line := line, column := 0 },
     rest.tail, line)
  match c with
  | '(' => single LEFT_PAREN
  | ')' => single RIGHT_PAREN
  | '{' => single LEFT_BRACE
  | '}' => single RIGHT_BRACE
  | ',' => single COMMA
  | '.' => single DOT
  | '-' => single MINUS
  | '+' => single PLUS
  | ';' => single SEMICOLON
  | '*' => single STAR
  | ' ' => (none, rest, line)
  | '\r' => (none, rest, line)
  | '\t' => (none, rest, line)
  | '\n' => (none, rest, line + 1)
  | '/' =>
    match rest with
    | '/' :: r => (none, r.dropWhile (fun ch => ch ≠ '\n'), line)
    | '*' :: r =>
      let b := blockBody r line
      match b.2.1 with
      | _ :: _ :: r' => (none, r', b.2.2)
      | _ =>
        (some { type := ILLEGAL, lexeme := "/*" ++ b.1.asString, literal := .nil,
                line := b.2.2, column := 0 },
         [], b.2.2)
    | _ => single SLASH
  | '!' =>
    match rest with
    | '=' :: _ => double BANG_EQUAL '='
    | _ => single BANG
  | '=' =>
    match rest with
    | '=' :: _ => double EQUAL_EQUAL '='
    | _ => single EQUAL
  | '<' =>
    match rest with
    | '=' :: _ => double LESS_EQUAL '='
    | _ => single LESS
  | '>' =>
    match rest with
    | '=' :: _ => double GREATER_EQUAL '='
    | _ => single GREATER
  | '"' =>
    let b := stringBody rest line
    match b.2.1 with
    | _ :: r' =>
      (some { type := STRING, lexeme := "\"" ++ b.1.asString ++ "\"",
              literal := .str b.1.asString, line := b.2.2, column := 0 },
       r', b.2.2)
    | [] =>
      (some { type := ILLEGAL, lexeme := "\"" ++ b.1.asString, literal := .nil,
              line := b.2.2, column := 0 },
       [], b.2.2)
  | _ =>
    if isDigit c then
      let intRest := c :: rest.takeWhile isDigit
      let r1 := rest.dropWhile isDigit
      match r1 with
      | '.' :: d :: _ =>
        if isDigit d then
          let frac := (r1.tail).takeWhile isDigit
          let r2 := (r1.tail).dropWhile isDigit
          (some { type := NUMBER,
                  lexeme := intRest.asString ++ "." ++ frac.asString,
                  literal := .num (parseNumQ intRest frac), line := line, column := 0 },
           r2, line)
        else
          (some { type := NUMBER, lexeme := intRest.asString,
                  literal := .num (parseNumQ intRest []), line := line, column := 0 },
           r1, line)
      | _ =>
        (some { type := NUMBER, lexeme := intRest.asString,
                literal := .num (parseNumQ intRest []), line := line, column := 0 },
         r1, line)
    else if isAlpha c then
      let text := (c :: rest.takeWhile isAlphaNumeric).asString
      (some { type := keywordType text, lexeme := text, literal := .nil,
              line := line, column := 0 },
       rest.dropWhile isAlphaNumeric, line)
    else
      (some { type := ILLEGAL, lexeme := c.toString, literal := .nil,
              line := line, column := 0 },
       rest, line)

/-- Loop of Go `l.ScanTokens()`: scan until the source is exhausted and
append the EOF marker.  `none` is fuel exhaustion, which
`ScanTokens` (fuel = length + 1) never reaches. -/
def scanLoop : Nat → List Char → Nat → List Token → Option (List Token)
  | 0, _, _, _ => none
  | _ + 1, [], line, acc =>
    some (acc ++ [{ type := EOF, lexeme := "", literal := .nil, line := line, column := 0 }])
  | fuel + 1, c :: rest, line, acc =>
    let r := scanToken c rest line
    scanLoop fuel r.2.1 r.2.2 (acc ++ r.1.toList)

/-- Go `l.ScanTokens()` on a fresh lexer (`lexer.New(source)`: empty
token list, line 1). -/
def ScanTokens (source : List Char) : Option (List Token) :=
  scanLoop (source.length + 1) source 1 []

/-! ## AST printer (src/printer/ast_printer.go) -/

/-- Decimal digit characters of `n`, most significant first.  The fuel
makes the recursion structural; fuel `n + 1` always suffices since the
argument shrinks by division by ten. -/
def natDigitsAux : Nat → Nat → List Char → List Char
  | 0, _, acc => acc
  | fuel + 1, n, acc =>
    if n < 10 then Nat.digitChar (n % 10) :: acc
    else natDigitsAux fuel (n / 10) (Nat.digitChar (n % 10) :: acc)

/-- Decimal digit string of `n` (e.g. `123` to `['1','2','3']`). -/
def natDigits (n : Nat) : List Char :=
  natDigitsAux (n + 1) n []

/-- Exponent field of Go's `%e`: always at least two digits (`e+06`). -/
def sciExpStr (e : Nat) : String :=
  if e < 10 then "0" ++ (natDigits e).asString else (natDigits e).asString

/-- Scientific rendering Go's FormatFloat `'g'` (shortest) produces for
an integral value at or above the `1e6` threshold: the digits with
trailing zeros stripped as mantissa (`1e+06`, `1.234567e+06`,
`1.2e+06`), exponent `length - 1`. -/
def sciIntegral (m : Nat) : String :=
  let ds := natDigits m
  match (ds.reverse.dropWhile (fun c => c = '0')).reverse with
  | [] => "0"
  | [d] => String.mk [d] ++ "e+" ++ sciExpStr (ds.length - 1)
  | d :: tail => String.mk [d] ++ "." ++ tail.asString ++ "e+" ++ sciExpStr (ds.length - 1)

/-- Rendering of a numeric literal as Go `fmt.Sprintf("%v", value)`,
i.e. `strconv.FormatFloat(f, 'g', -1, 64)`: with shortest precision the
`g` verb uses fixed notation when the decimal exponent is below 6 and
scientific notation from `1e6` upward, so integral values of magnitude
below `10^6` print as plain (signed) digit strings and integral values
at or above `10^6` print in scientific notation (`1e+06`).  Exact for
integral values of magnitude below `2^53`, where float64 holds the
integer exactly and the shortest round-trip digits are the decimal
digits; non-integral values, which no claim exercises, are approximated
by the rational printer. -/
def numToString (q : ℚ) : String :=
  if q.den = 1 then
    if 0 ≤ q.num ∧ q.num < 1000000 then (natDigits q.num.toNat).asString
    else if -1000000 < q.num ∧ q.num < 0 then "-" ++ (natDigits (-q.num).toNat).asString
    else if 0 ≤ q.num then sciIntegral q.num.toNat
    else "-" ++ sciIntegral (-q.num).toNat
  else toString q

/-- Go `VisitLiteralExpr`: `nil` prints as "nil", every other literal
via `%v`. -/
def printLiteral : GoValue → String
  | .nil => "nil"
  | .bool b => if b then "true" else "false"
  | .num q => numToString q
  | .str s => s

/-- Go `AstPrinter.Print` / `parenthesize`: fully parenthesized prefix
rendering, `(name part ...)`. Returns `none` on a `Ternary` node: the
src printer has no `VisitTernaryExpr` (its expression set predates the
ternary revision), so such a call does not exist in the source. -/
def printExpr : Expr → Option String
  | .Literal v => some (printLiteral v)
  | .Grouping e => (printExpr e).map (fun s => "(group " ++ s ++ ")")
  | .Unary op r => (printExpr r).map (fun s => "(" ++ op.lexeme ++ " " ++ s ++ ")")
  | .Binary l op r => do
    let sl ← printExpr l
    let sr ← printExpr r
    some ("(" ++ op.lexeme ++ " " ++ sl ++ " " ++ sr ++ ")")
  | .Ternary _ _ _ => none

/-! ## Evaluator

Modelled from the spec: no interpreter/evaluator source is under src/.
Spec section 4.3 gives the exact semantics: truthiness (`Nil` and
`Boolean(false)` false, all else true), type-checked unary minus,
overloaded `+`, numeric-only comparison and arithmetic, and equality
without cross-type coercion.  Runtime type errors are plain descriptive
messages (spec section 7: "less structured than parse errors ... no
carried token"). -/

/-- Modelled from the spec: the truthiness rule. -/
def isTruthy : GoValue → Bool
  | .nil => false
  | .bool b => b
  | _ => true

/-- Modelled from the spec: equality — `Nil == Nil` is true, `Nil`
against anything non-nil is false, otherwise value equality within the
same dynamic type, never across types. -/
def isEqual : GoValue → GoValue → Bool
  | .nil, .nil => true
  | .nil, _ => false
  | _, .nil => false
  | .bool a, .bool b => a == b
  | .num a, .num b => a == b
  | .str a, .str b => a == b
  | _, _ => false

/-- Modelled from the spec: `evaluate(Expr) → Value`, a pure recursive
descent producing a dynamic value or a runtime type error.  Division is
exact rational division (the IEEE ±Infinity/NaN behavior of division
by zero is outside the rational model; no claim exercises it).  The
ternary evaluates its condition's truthiness and one branch. -/
def evaluate : Expr → Except String GoValue
  | .Literal v => .ok v
  | .Grouping e => evaluate e
  | .Unary op r => do
    let v ← evaluate r
    if op.type = BANG then
      .ok (.bool (!isTruthy v))
    else if op.type = MINUS then
      match v with
      | .num q => .ok (.num (-q))
      | _ => .error ("Operand must be a number for operator " ++ op.lexeme ++ ".")
    else
      .error ("Unknown unary operator " ++ op.lexeme ++ ".")
  | .Binary l op r => do
    let lv ← evaluate l
    let rv ← evaluate r
    if op.type = EQUAL_EQUAL then .ok (.bool (isEqual lv rv))
    else if op.type = BANG_EQUAL then .ok (.bool (!isEqual lv rv))
    else if op.type = PLUS then
      match lv, rv with
      | .num a, .num b => .ok (.num (a + b))
      | .str a, .str b => .ok (.str (a ++ b))
      | _, _ => .error ("Operands must be two numbers or two strings for operator " ++ op.lexeme ++ ".")
    else
      match lv, rv with
      | .num a, .num b =>
        if op.type = MINUS then .ok (.num (a - b))
        else if op.type = STAR then .ok (.num (a * b))
        else if op.type = SLASH then .ok (.num (a / b))
        else if op.type = GREATER then .ok (.bool (decide (a > b)))
        else if op.type = GREATER_EQUAL then .ok (.bool (decide (a ≥ b)))
        else if op.type = LESS then .ok (.bool (decide (a < b)))
        else if op.type = LESS_EQUAL then .ok (.bool (decide (a ≤ b)))
        else .error ("Unknown binary operator " ++ op.lexeme ++ ".")
      | _, _ => .error ("Operands must be numbers for operator " ++ op.lexeme ++ ".")
  | .Ternary c t f => do
    let cv ← evaluate c
    if isTruthy cv then evaluate t else evaluate f

/-! ## Parser invariants and concrete fixtures -/

/-- Cursor in bounds: `p.tokens[p.current]` is a real element, so Go's
`p.peek()` cannot panic. -/
abbrev inRange (p : Parser) : Prop :=
  p.current < p.tokens.length

/-- The lexer's boundary contract: the token sequence is non-empty and
its final element is the end-of-input marker. -/
def EOFterminated (ts : List Token) : Prop :=
  ∃ t, ts.getLast? = some t ∧ t.type = EOF

/-- Number token as built by the parser tests: type NUMBER, literal the
numeric value. -/
def numTok (q : ℚ) : Token :=
  { type := NUMBER, lexeme := "", literal := .num q, line := 0, column := 0 }

/-- Operator or punctuation token whose lexeme is its type string. -/
def opTok (t : TokenType) : Token :=
  { type := t, lexeme := t, literal := .nil, line := 0, column := 0 }

/-- Keyword token `true`. -/
def trueTok : Token :=
  { type := TRUE, lexeme := "true", literal := .bool true, line := 0, column := 0 }

/-- End-of-input token as the parser tests build it. -/
def eofTok : Token :=
  { type := EOF, lexeme := "", literal := .nil, line := 0, column := 0 }

/-- The tree Parse produces from the tokens of `1 + 2` as lexed from
the source text (lexemes and lines filled by the lexer). -/
def tree12 : Expr :=
  .Binary (.Literal (.num 1))
    { type := PLUS, lexeme := "+", literal := .nil, line := 1, column := 0 }
    (.Literal (.num 2))

/-! # Theorems -/

/-- C5: parsing the token sequence of `1 + 2 * 3` (NUMBER 1, PLUS,
NUMBER 2, STAR, NUMBER 3, EOF) produces exactly the tree
`Binary(Literal 1, +, Binary(Literal 2, *, Literal 3))`: multiplicative
operators bind tighter than additive ones. -/
theorem parse_mul_binds_tighter_than_add :
    Parse 32 [numTok 1, opTok PLUS, numTok 2, opTok STAR, numTok 3, eofTok]
      = .ok (.Binary (.Literal (.num 1)) (opTok PLUS)
          (.Binary (.Literal (.num 2)) (opTok STAR) (.Literal (.num 3)))) := by
  rfl

/-- C3: the truthiness rule maps exactly `Nil` and `Boolean(false)` to
false and every other value (including `Number(0)` and the empty string)
to true; evaluating unary `!` on a literal of any value returns the
negation of its truthiness, so `!nil` is true and `!0` is false. -/
theorem truthiness_and_bang (v : GoValue) :
    (isTruthy v = false ↔ v = .nil ∨ v = .bool false) ∧
    evaluate (.Unary (opTok BANG) (.Literal v)) = .ok (.bool (!isTruthy v)) ∧
    evaluate (.Unary (opTok BANG) (.Literal .nil)) = .ok (.bool true) ∧
    evaluate (.Unary (opTok BANG) (.Literal (.num 0))) = .ok (.bool false) ∧
    isTruthy (.num 0) = true ∧ isTruthy (.str "") = true := by
  refine ⟨?_, rfl, rfl, rfl, rfl, rfl⟩
  cases v with
  | bool b => cases b <;> simp [isTruthy]
  | _ => simp [isTruthy]

/-- C10: rendering an `Error` produces `[Pos L:C] Error at end: M` when
the carried token is the EOF marker and `[Pos L:C] Error at 'X': M`
otherwise, so every rendered parse diagnostic carries the token's
source position. -/
theorem error_render_format (e : Error) :
    (e.token.type = EOF →
      e.render = "[Pos " ++ toString e.token.line ++ ":" ++
        toString e.token.column ++ "] Error at end: " ++ e.message) ∧
    (e.token.type ≠ EOF →
      e.render = "[Pos " ++ toString e.token.line ++ ":" ++
        toString e.token.column ++ "] Error at '" ++ e.token.lexeme ++
        "': " ++ e.message) := by
  constructor <;> intro h <;> simp [Error.render, h]

/-- Witness for C10: both formats at concrete errors. -/
theorem error_render_format_witness :
    Error.render { message := "Expect expression.", token := eofTok }
      = "[Pos 0:0] Error at end: Expect expression." ∧
    Error.render { message := "Expect expression.", token := opTok PLUS }
      = "[Pos 0:0] Error at '+': Expect expression." := by
  constructor
  · exact ((error_render_format _).1 rfl).trans rfl
  · exact ((error_render_format _).2 (by decide)).trans rfl

/-- C9: `Parse` stops after deriving one complete expression and never
examines trailing tokens: whenever `expression` succeeds, `Parse`
returns that tree with no error even though the final cursor's token is
not EOF (further tokens remain unconsumed). -/
theorem parse_ignores_trailing_tokens (fuel : Nat) (ts : List Token)
    (e : Expr) (p' : Parser)
    (h : expression fuel (ParserNew ts) = .ok e p')
    (hTrail : p'.peek.type ≠ EOF) :
    Parse fuel ts = .ok e ∧ p'.peek.type ≠ EOF := by
  exact ⟨by simp [Parse, Parser.Parse, h], hTrail⟩

/-- Witness for C9: on NUMBER 1, NUMBER 2, EOF the leading expression is
`Literal 1`, the cursor stops on the second NUMBER, and `Parse` returns
`Literal 1` without error. -/
theorem parse_ignores_trailing_tokens_witness :
    expression 32 (ParserNew [numTok 1, numTok 2, eofTok])
      = .ok (.Literal (.num 1)) { tokens := [numTok 1, numTok 2, eofTok], current := 1 } ∧
    Parse 32 [numTok 1, numTok 2, eofTok] = .ok (.Literal (.num 1)) := by
  refine ⟨rfl, ?_⟩
  exact (parse_ignores_trailing_tokens 32 [numTok 1, numTok 2, eofTok]
    (.Literal (.num 1)) { tokens := [numTok 1, numTok 2, eofTok], current := 1 }
    rfl (by decide)).1

/-- C1: in the ternary-capable parser, a ternary expression whose true
branch is not followed by a `:` token is a parse error with message
exactly "Expect ':' after true branch of ternary expression.", raised
at the offending current token; `Parse` propagates it unchanged
(spec-modelled: the ternary parser revision is not under src/). -/
theorem ternary_missing_colon (fuel : Nat) (p0 p1 p3 : Parser)
    (condition trueBranch : Expr)
    (h1 : TP.equality fuel p0 = .ok condition p1)
    (h2 : p1.peek.type = QUESTION)
    (h3 : TP.expression fuel (p1.advance).2 = .ok trueBranch p3)
    (h4 : p3.check COLON = false) :
    TP.ternary (fuel + 1) p0
      = .err (ErrorNew p3.peek "Expect ':' after true branch of ternary expression.") ∧
    ∀ ts, p0 = ParserNew ts →
      TP.Parse (fuel + 2) ts
        = .err (ErrorNew p3.peek "Expect ':' after true branch of ternary expression.") := by
  have hcheck : p1.check QUESTION = true := by
    simp [Parser.check, Parser.isAtEnd, h2, QUESTION, EOF]
  have hmain : TP.ternary (fuel + 1) p0
      = .err (ErrorNew p3.peek "Expect ':' after true branch of ternary expression.") := by
    simp only [TP.ternary, h1, Parser.matchTypes, hcheck, if_true, h3,
      Parser.consume, h4, Bool.false_eq_true, if_false]
  refine ⟨hmain, fun ts hts => ?_⟩
  simp only [TP.Parse, TP.expression, ← hts, hmain]

/-- Witness for C1: the token sequence of `true ? 1` (TRUE, QUESTION,
NUMBER 1, EOF) fails with exactly that message, carried by the EOF
token. -/
theorem ternary_missing_colon_witness :
    TP.Parse 32 [trueTok, opTok QUESTION, numTok 1, eofTok]
      = .err (ErrorNew eofTok "Expect ':' after true branch of ternary expression.") := by
  exact (ternary_missing_colon 30
    (ParserNew [trueTok, opTok QUESTION, numTok 1, eofTok])
    { tokens := [trueTok, opTok QUESTION, numTok 1, eofTok], current := 1 }
    { tokens := [trueTok, opTok QUESTION, numTok 1, eofTok], current := 3 }
    (.Literal (.bool true)) (.Literal (.num 1))
    rfl rfl rfl (by decide)).2 _ rfl

/-- Left-nested tree `(a op b) op c`. -/
def leftNest (op : Token) (a b c : ℚ) : Expr :=
  .Binary (.Binary (.Literal (.num a)) op (.Literal (.num b))) op (.Literal (.num c))

/-- Right-nested tree `a op (b op c)`. -/
def rightNest (op : Token) (a b c : ℚ) : Expr :=
  .Binary (.Literal (.num a)) op (.Binary (.Literal (.num b)) op (.Literal (.num c)))

theorem leftNest_ne_rightNest (op : Token) (a b c : ℚ) :
    leftNest op a b c ≠ rightNest op a b c := by
  intro heq
  simp [leftNest, rightNest] at heq

set_option maxHeartbeats 1600000 in
theorem parse_two_same_ops (ty lex : String) (lit : GoValue) (ln col : Nat)
    (a b c : ℚ)
    (h : ty ∈ [BANG_EQUAL, EQUAL_EQUAL, GREATER, GREATER_EQUAL,
      LESS, LESS_EQUAL, MINUS, PLUS, SLASH, STAR]) :
    Parse 32 [numTok a, ⟨ty, lex, lit, ln, col⟩, numTok b,
        ⟨ty, lex, lit, ln, col⟩, numTok c, eofTok]
      = .ok (leftNest ⟨ty, lex, lit, ln, col⟩ a b c) := by
  simp only [List.mem_cons, List.not_mem_nil, or_false] at h
  rcases h with h | h | h | h | h | h | h | h | h | h <;> subst h <;> rfl

/-- C4: for every operator token of the four left-associative binary
levels (equality, comparison, term, factor) and all numeric operands
a, b, c, the token sequence of `a op b op c` parses to
`Binary(Binary(a, op, b), op, c)` and never to
`Binary(a, op, Binary(b, op, c))`. -/
theorem binary_levels_left_associative (op : Token) (a b c : ℚ)
    (h : op.type ∈ [BANG_EQUAL, EQUAL_EQUAL, GREATER, GREATER_EQUAL,
      LESS, LESS_EQUAL, MINUS, PLUS, SLASH, STAR]) :
    Parse 32 [numTok a, op, numTok b, op, numTok c, eofTok]
      = .ok (leftNest op a b c) ∧
    Parse 32 [numTok a, op, numTok b, op, numTok c, eofTok]
      ≠ .ok (rightNest op a b c) := by
  obtain ⟨ty, lex, lit, ln, col⟩ := op
  have hp := parse_two_same_ops ty lex lit ln col a b c h
  exact ⟨hp, fun hbad =>
    leftNest_ne_rightNest _ a b c (ParseOutcome.ok.inj (hp.symm.trans hbad))⟩

theorem check_false_of_ne (p : Parser) (t : TokenType) (h : p.peek.type ≠ t) :
    p.check t = false := by
  unfold Parser.check
  split
  · rfl
  · simpa using h

/-- C6: when `primary` is reached with the next unconsumed token none of
NUMBER, STRING, TRUE, FALSE, NULL or LEFT_PAREN, it raises the
`Expect expression.` parse error carrying that token (empty input,
whose only token is EOF, fails this way); and when a consumed `(` has
its inner expression not followed by `)`, it raises the
`Expect ')' after expression.` parse error carrying the following
token. -/
theorem primary_error_messages (fuel : Nat) (p : Parser) :
    (p.peek.type ∉ [NUMBER, STRING, TRUE, FALSE, NULL, LEFT_PAREN] →
      primary (fuel + 1) p = .err (ErrorNew p.peek "Expect expression.")) ∧
    (∀ e p6, p.peek.type = LEFT_PAREN →
      expression fuel (p.advance).2 = .ok e p6 →
      p6.peek.type ≠ RIGHT_PAREN →
      primary (fuel + 1) p = .err (ErrorNew p6.peek "Expect ')' after expression.")) := by
  constructor
  · intro h
    simp only [List.mem_cons, List.not_mem_nil, or_false, not_or] at h
    obtain ⟨hNum, hStr, hT, hF, hN, hLP⟩ := h
    simp only [primary, Parser.matchTypes, check_false_of_ne p FALSE hF,
      check_false_of_ne p TRUE hT, check_false_of_ne p NULL hN,
      check_false_of_ne p NUMBER hNum, check_false_of_ne p STRING hStr,
      check_false_of_ne p LEFT_PAREN hLP, Bool.false_eq_true, if_false]
  · intro e p6 hLP hInner hRP
    have hF : p.peek.type ≠ FALSE := by rw [hLP]; decide
    have hT : p.peek.type ≠ TRUE := by rw [hLP]; decide
    have hN : p.peek.type ≠ NULL := by rw [hLP]; decide
    have hNum : p.peek.type ≠ NUMBER := by rw [hLP]; decide
    have hStr : p.peek.type ≠ STRING := by rw [hLP]; decide
    have hc : p.check LEFT_PAREN = true := by
      simp [Parser.check, Parser.isAtEnd, hLP, LEFT_PAREN, EOF]
    simp only [primary, Parser.matchTypes, check_false_of_ne p FALSE hF,
      check_false_of_ne p TRUE hT, check_false_of_ne p NULL hN,
      check_false_of_ne p NUMBER hNum, check_false_of_ne p STRING hStr,
      hc, Bool.false_eq_true, if_false, if_true, hInner, Parser.consume,
      check_false_of_ne p6 RIGHT_PAREN hRP]

/-- Witness for C6: empty input fails with `Expect expression.` at its
EOF token, and `( 1` fails with `Expect ')' after expression.` at the
token following the inner expression. -/
theorem primary_error_messages_witness :
    Parse 8 [eofTok] = .err (ErrorNew eofTok "Expect expression.") ∧
    primary 8 (ParserNew [eofTok]) = .err (ErrorNew eofTok "Expect expression.") ∧
    primary 8 (ParserNew [opTok LEFT_PAREN, numTok 1, eofTok])
      = .err (ErrorNew eofTok "Expect ')' after expression.") := by
  refine ⟨rfl, ?_, ?_⟩
  · exact (primary_error_messages 7 (ParserNew [eofTok])).1 (by decide)
  · exact (primary_error_messages 7
      (ParserNew [opTok LEFT_PAREN, numTok 1, eofTok])).2
      (.Literal (.num 1))
      { tokens := [opTok LEFT_PAREN, numTok 1, eofTok], current := 2 }
      rfl rfl (by decide)

/-- C2 counterexample: the tree Parse produces from the source `1 + 2`
renders to the prefix string `(+ 1 2)`, and lexing and re-parsing that
rendering does not yield the tree back — it raises the ParseError
`Expect expression.` at the `+` token, refuting round-trip idempotence
for produced trees in general. -/
theorem roundtrip_counterexample :
    ScanTokens ("1 + 2".toList)
      = some [{ type := NUMBER, lexeme := "1", literal := .num 1, line := 1, column := 0 },
              { type := PLUS, lexeme := "+", literal := .nil, line := 1, column := 0 },
              { type := NUMBER, lexeme := "2", literal := .num 2, line := 1, column := 0 },
              { type := EOF, lexeme := "", literal := .nil, line := 1, column := 0 }] ∧
    Parse 32 [{ type := NUMBER, lexeme := "1", literal := .num 1, line := 1, column := 0 },
              { type := PLUS, lexeme := "+", literal := .nil, line := 1, column := 0 },
              { type := NUMBER, lexeme := "2", literal := .num 2, line := 1, column := 0 },
              { type := EOF, lexeme := "", literal := .nil, line := 1, column := 0 }]
      = .ok tree12 ∧
    printExpr tree12 = some "(+ 1 2)" ∧
    (∃ ts2, ScanTokens ("(+ 1 2)".toList) = some ts2 ∧
      Parse 32 ts2 = .err (ErrorNew
        { type := PLUS, lexeme := "+", literal := .nil, line := 1, column := 0 }
        "Expect expression.")) := by
  refine ⟨by decide, by decide, by decide,
    ⟨[{ type := LEFT_PAREN, lexeme := "(", literal := .nil, line := 1, column := 0 },
      { type := PLUS, lexeme := "+", literal := .nil, line := 1, column := 0 },
      { type := NUMBER, lexeme := "1", literal := .num 1, line := 1, column := 0 },
      { type := NUMBER, lexeme := "2", literal := .num 2, line := 1, column := 0 },
      { type := RIGHT_PAREN, lexeme := ")", literal := .nil, line := 1, column := 0 },
      { type := EOF, lexeme := "", literal := .nil, line := 1, column := 0 }],
      by decide, by decide⟩⟩

/-! ## Digit rendering and re-lexing facts for the amended C2 -/



theorem digitsToNat_foldl (l : List Char) : ∀ a : Nat,
    l.foldl (fun x c => x * 10 + (c.toNat - 48)) a = a * 10 ^ l.length + digitsToNat l := by
  induction l with
  | nil => intro a; simp [digitsToNat]
  | cons c tl ih =>
    intro a
    have hc : digitsToNat (c :: tl)
        = (c.toNat - 48) * 10 ^ tl.length + digitsToNat tl := by
      show List.foldl _ 0 (c :: tl) = _
      simp only [List.foldl_cons]
      rw [ih (0 * 10 + (c.toNat - 48))]
      ring_nf
    simp only [List.foldl_cons]
    rw [ih (a * 10 + (c.toNat - 48)), hc, List.length_cons, pow_succ]
    ring

theorem digitsToNat_cons (c : Char) (tl : List Char) :
    digitsToNat (c :: tl) = (c.toNat - 48) * 10 ^ tl.length + digitsToNat tl := by
  show List.foldl _ 0 (c :: tl) = _
  simp only [List.foldl_cons]
  rw [digitsToNat_foldl tl (0 * 10 + (c.toNat - 48))]
  ring_nf

theorem digitChar_toNat_sub (d : Nat) (h : d < 10) :
    (Nat.digitChar d).toNat - 48 = d := by
  interval_cases d <;> rfl

theorem digitChar_isDigit (d : Nat) (h : d < 10) :
    isDigit (Nat.digitChar d) = true := by
  interval_cases d <;> rfl

theorem natDigitsAux_spec : ∀ (fuel n : Nat) (acc : List Char), n < fuel →
    digitsToNat (natDigitsAux fuel n acc) = n * 10 ^ acc.length + digitsToNat acc := by
  intro fuel
  induction fuel with
  | zero => intro n acc h; omega
  | succ m ih =>
    intro n acc h
    by_cases h10 : n < 10
    · simp only [natDigitsAux, h10, if_true]
      rw [digitsToNat_cons, digitChar_toNat_sub _ (Nat.mod_lt _ (by omega)),
        Nat.mod_eq_of_lt h10]
    · simp only [natDigitsAux, h10, if_false]
      have hlt : n / 10 < n := Nat.div_lt_self (by omega) (by omega)
      have hdiv : n / 10 < m := by omega
      rw [ih (n / 10) _ hdiv, digitsToNat_cons,
        digitChar_toNat_sub _ (Nat.mod_lt _ (by omega)), List.length_cons, pow_succ]
      have hmod := Nat.div_add_mod n 10
      conv_rhs => rw [← hmod]
      ring

theorem digitsToNat_natDigits (n : Nat) : digitsToNat (natDigits n) = n := by
  have h := natDigitsAux_spec (n + 1) n [] (by omega)
  simpa [digitsToNat] using h

theorem natDigitsAux_digits : ∀ (fuel n : Nat) (acc : List Char),
    (∀ c ∈ acc, isDigit c = true) →
    ∀ c ∈ natDigitsAux fuel n acc, isDigit c = true := by
  intro fuel
  induction fuel with
  | zero => intro n acc hacc; simpa [natDigitsAux] using hacc
  | succ m ih =>
    intro n acc hacc c hc
    by_cases h10 : n < 10
    · simp only [natDigitsAux, h10, if_true] at hc
      rcases List.mem_cons.mp hc with rfl | hmem
      · exact digitChar_isDigit _ (Nat.mod_lt _ (by omega))
      · exact hacc _ hmem
    · simp only [natDigitsAux, h10, if_false] at hc
      refine ih (n / 10) _ ?_ c hc
      intro x hx
      rcases List.mem_cons.mp hx with rfl | hmem
      · exact digitChar_isDigit _ (Nat.mod_lt _ (by omega))
      · exact hacc _ hmem

theorem natDigits_all_digits (n : Nat) : ∀ c ∈ natDigits n, isDigit c = true :=
  natDigitsAux_digits (n + 1) n [] (by simp)

theorem natDigitsAux_ne_nil : ∀ (fuel n : Nat) (acc : List Char),
    0 < fuel ∨ acc ≠ [] → natDigitsAux fuel n acc ≠ [] := by
  intro fuel
  induction fuel with
  | zero =>
    intro n acc h
    simp only [natDigitsAux]
    exact h.resolve_left (by omega)
  | succ m ih =>
    intro n acc h
    by_cases h10 : n < 10
    · simp [natDigitsAux, h10]
    · simp only [natDigitsAux, h10, if_false]
      exact ih (n / 10) _ (Or.inr (by simp))

theorem natDigits_ne_nil (n : Nat) : natDigits n ≠ [] :=
  natDigitsAux_ne_nil (n + 1) n [] (Or.inl (by omega))



theorem takeWhile_all (p : Char → Bool) :
    ∀ l : List Char, (∀ x ∈ l, p x = true) → l.takeWhile p = l := by
  intro l
  induction l with
  | nil => intro _; rfl
  | cons c tl ih =>
    intro h
    have hpc : p c = true := h c (by simp)
    have htl := ih fun x hx => h x (by simp [hx])
    simp [List.takeWhile_cons, hpc, htl]

theorem dropWhile_all (p : Char → Bool) :
    ∀ l : List Char, (∀ x ∈ l, p x = true) → l.dropWhile p = [] := by
  intro l
  induction l with
  | nil => intro _; rfl
  | cons c tl ih =>
    intro h
    have hpc : p c = true := h c (by simp)
    have htl := ih fun x hx => h x (by simp [hx])
    simp [List.dropWhile_cons, hpc, htl]

theorem scanToken_digits (c : Char) (cs : List Char) (line : Nat)
    (hc : isDigit c = true) (hcs : ∀ x ∈ cs, isDigit x = true) :
    scanToken c cs line
      = (some { type := NUMBER,
                lexeme := (c :: cs).asString,
                literal := .num (parseNumQ (c :: cs) []),
                line := line, column := 0 },
         [], line) := by
  have htake : cs.takeWhile isDigit = cs := takeWhile_all isDigit cs hcs
  have hdrop : cs.dropWhile isDigit = [] := dropWhile_all isDigit cs hcs
  unfold scanToken
  split
  all_goals try (simp [hc, htake, hdrop])
  all_goals exact absurd hc (by decide)



theorem scan_digits (c : Char) (cs : List Char)
    (hc : isDigit c = true) (hcs : ∀ x ∈ cs, isDigit x = true) :
    ScanTokens (c :: cs)
      = some [{ type := NUMBER,
                lexeme := (c :: cs).asString,
                literal := .num (parseNumQ (c :: cs) []),
                line := 1, column := 0 },
              { type := EOF, lexeme := "", literal := .nil, line := 1, column := 0 }] := by
  unfold ScanTokens
  simp only [List.length_cons]
  rw [show cs.length + 1 + 1 = cs.length + 2 from rfl]
  simp only [scanLoop, scanToken_digits c cs 1 hc hcs]
  simp [scanLoop]

theorem parseNumQ_nil (l : List Char) : parseNumQ l [] = (digitsToNat l : ℚ) := by
  simp [parseNumQ, digitsToNat, Rat.mkRat_one]

theorem parse_single_number (lex : String) (q : ℚ) (l1 l2 : Nat) :
    Parse 32 [{ type := NUMBER, lexeme := lex, literal := .num q, line := l1, column := 0 },
              { type := EOF, lexeme := "", literal := .nil, line := l2, column := 0 }]
      = .ok (.Literal (.num q)) := rfl



theorem numeric_leaf_roundtrip (n : Nat) (hn : n < 1000000) :
    ∃ s ts, printExpr (.Literal (.num n)) = some s ∧
      ScanTokens s.toList = some ts ∧ Parse 32 ts = .ok (.Literal (.num n)) := by
  obtain ⟨c, cs, hrepr⟩ : ∃ c cs, natDigits n = c :: cs := by
    cases hd : natDigits n with
    | nil => exact absurd hd (natDigits_ne_nil n)
    | cons c cs => exact ⟨c, cs, rfl⟩
  have hall := natDigits_all_digits n
  have hc : isDigit c = true := hall c (by rw [hrepr]; simp)
  have hcs : ∀ x ∈ cs, isDigit x = true := fun x hx => hall x (by rw [hrepr]; simp [hx])
  have h0 : (0 : ℤ) ≤ (n : ℤ) := Int.ofNat_nonneg n
  have h1 : (n : ℤ) < 1000000 := by exact_mod_cast hn
  have hprint : printExpr (.Literal (.num (n : ℚ))) = some ((natDigits n).asString) := by
    simp [printExpr, printLiteral, numToString, Rat.den_natCast, Rat.num_natCast,
      Int.toNat_natCast, h0, h1]
  have hval : parseNumQ (c :: cs) [] = (n : ℚ) := by
    rw [← hrepr, parseNumQ_nil, digitsToNat_natDigits]
  refine ⟨(natDigits n).asString,
    [{ type := NUMBER,
       lexeme := (c :: cs).asString,
       literal := .num (parseNumQ (c :: cs) []),
       line := 1, column := 0 },
     { type := EOF, lexeme := "", literal := .nil, line := 1, column := 0 }],
    hprint, ?_, ?_⟩
  · rw [show ((natDigits n).asString).toList = natDigits n from rfl, hrepr]
    exact scan_digits c cs hc hcs
  · rw [← hval]
    exact parse_single_number _ _ 1 1

/-- C2 amended: re-parsing the canonical prefix rendering yields a
structurally identical tree for boolean literal leaves and for numeric
literal leaves whose value is an integer n with 0 <= n < 10^6 (below
the threshold at which Go's %g switches to scientific notation), but
not for produced trees in general: operator and grouping nodes render
in prefix notation, which the grammar rejects (`(+ 1 2)` fails with
`Expect expression.`); a nil leaf renders as `nil`, which the lexer
reads as an identifier (the null keyword is `null`), failing the same
way; and an integral numeric leaf at or above 10^6 renders in
scientific notation (`1e+06`), which re-lexes as a NUMBER followed by
an identifier and further tokens, so re-parsing returns `Literal 1` — a
different tree. -/
theorem roundtrip_amended :
    (∀ b : Bool, ∃ s ts,
      printExpr (.Literal (.bool b)) = some s ∧
      ScanTokens s.toList = some ts ∧
      Parse 32 ts = .ok (.Literal (.bool b))) ∧
    (∀ n : Nat, n < 1000000 → ∃ s ts,
      printExpr (.Literal (.num n)) = some s ∧
      ScanTokens s.toList = some ts ∧
      Parse 32 ts = .ok (.Literal (.num n))) ∧
    (printExpr (.Literal .nil) = some "nil" ∧
      (∃ ts, ScanTokens "nil".toList = some ts ∧
        Parse 32 ts = .err (ErrorNew
          { type := IDENTIFIER, lexeme := "nil", literal := .nil, line := 1, column := 0 }
          "Expect expression."))) ∧
    (∃ ts2, ScanTokens ("(+ 1 2)".toList) = some ts2 ∧
      Parse 32 ts2 = .err (ErrorNew
        { type := PLUS, lexeme := "+", literal := .nil, line := 1, column := 0 }
        "Expect expression.")) ∧
    (printExpr (.Literal (.num 1000000)) = some "1e+06" ∧
      (∃ ts3, ScanTokens "1e+06".toList = some ts3 ∧
        Parse 32 ts3 = .ok (.Literal (.num 1))) ∧
      Expr.Literal (GoValue.num 1) ≠ .Literal (.num 1000000)) := by
  refine ⟨fun b => ?_, fun n hn => numeric_leaf_roundtrip n hn, ⟨by decide, ?_⟩, ?_, ?_, ?_, ?_⟩
  · cases b
    · exact ⟨"false",
        [{ type := FALSE, lexeme := "false", literal := .nil, line := 1, column := 0 },
         { type := EOF, lexeme := "", literal := .nil, line := 1, column := 0 }],
        by decide, by decide, by decide⟩
    · exact ⟨"true",
        [{ type := TRUE, lexeme := "true", literal := .nil, line := 1, column := 0 },
         { type := EOF, lexeme := "", literal := .nil, line := 1, column := 0 }],
        by decide, by decide, by decide⟩
  · exact ⟨[{ type := IDENTIFIER, lexeme := "nil", literal := .nil, line := 1, column := 0 },
      { type := EOF, lexeme := "", literal := .nil, line := 1, column := 0 }],
      by decide, by decide⟩
  · exact ⟨[{ type := LEFT_PAREN, lexeme := "(", literal := .nil, line := 1, column := 0 },
      { type := PLUS, lexeme := "+", literal := .nil, line := 1, column := 0 },
      { type := NUMBER, lexeme := "1", literal := .num 1, line := 1, column := 0 },
      { type := NUMBER, lexeme := "2", literal := .num 2, line := 1, column := 0 },
      { type := RIGHT_PAREN, lexeme := ")", literal := .nil, line := 1, column := 0 },
      { type := EOF, lexeme := "", literal := .nil, line := 1, column := 0 }],
      by decide, by decide⟩
  · decide
  · exact ⟨[{ type := NUMBER, lexeme := "1", literal := .num 1, line := 1, column := 0 },
      { type := IDENTIFIER, lexeme := "e", literal := .nil, line := 1, column := 0 },
      { type := PLUS, lexeme := "+", literal := .nil, line := 1, column := 0 },
      { type := NUMBER, lexeme := "06", literal := .num 6, line := 1, column := 0 },
      { type := EOF, lexeme := "", literal := .nil, line := 1, column := 0 }],
      by decide, by decide⟩
  · decide

/-- Witness for C2's amended theorem: the numeric round-trip instantiated
at the concrete value 123456 (its hypothesis 123456 < 10^6 discharged by
computation). -/
theorem roundtrip_amended_witness :
    ∃ s ts, printExpr (.Literal (.num (123456 : Nat))) = some s ∧
      ScanTokens s.toList = some ts ∧
      Parse 32 ts = .ok (.Literal (.num (123456 : Nat))) :=
  roundtrip_amended.2.1 123456 (by decide)

/-- Witness for C4: `1 + 2 + 3` parses left-associatively. -/
theorem binary_levels_left_associative_witness :
    Parse 32 [numTok 1, opTok PLUS, numTok 2, opTok PLUS, numTok 3, eofTok]
      = .ok (leftNest (opTok PLUS) 1 2 3) ∧
    Parse 32 [numTok 1, opTok PLUS, numTok 2, opTok PLUS, numTok 3, eofTok]
      ≠ .ok (rightNest (opTok PLUS) 1 2 3) :=
  binary_levels_left_associative (opTok PLUS) 1 2 3 (by decide)


/-! ## Lexer EOF invariant (C8): helper bounds and the scan induction -/


theorem dropWhile_length_le (p : Char → Bool) (l : List Char) :
    (l.dropWhile p).length ≤ l.length := by
  induction l with
  | nil => simp
  | cons a tl ih =>
    by_cases h : p a
    · simp only [List.dropWhile, h, List.length_cons]
      omega
    · simp [List.dropWhile, h]

theorem stringBody_rest_le (cs : List Char) (line : Nat) :
    (stringBody cs line).2.1.length ≤ cs.length := by
  induction cs generalizing line with
  | nil => simp [stringBody]
  | cons c tl ih =>
    by_cases h : c = '"' <;> simp [stringBody, h]
    · exact Nat.le_trans (ih _) (Nat.le_succ _)

theorem blockBody_rest_le (cs : List Char) (line : Nat) :
    (blockBody cs line).2.1.length ≤ cs.length := by
  induction cs generalizing line with
  | nil => simp [blockBody]
  | cons c tl ih =>
    by_cases h : c = '*' ∧ tl.head? = some '/' <;> simp [blockBody, h]
    · exact Nat.le_trans (ih _) (Nat.le_succ _)

theorem scanToken_rest_le (c : Char) (rest : List Char) (line : Nat) :
    (scanToken c rest line).2.1.length ≤ rest.length := by
  unfold scanToken
  dsimp only
  split
  any_goals exact Nat.le_refl _
  -- '/' : line comment, block comment, plain slash
  · split
    · dsimp only
      simp only [List.length_cons]
      exact Nat.le_succ_of_le (dropWhile_length_le _ _)
    · rename_i r
      have hb := blockBody_rest_le r line
      split
      · rename_i r' heq
        rw [heq] at hb
        dsimp only
        simp only [List.length_cons] at *
        omega
      · dsimp only
        simp
    · exact Nat.le_refl _
  -- '!' '=' '<' '>' with a following '='
  · split
    · dsimp only
      simp only [List.tail_cons, List.length_cons]
      omega
    · exact Nat.le_refl _
  · split
    · dsimp only
      simp only [List.tail_cons, List.length_cons]
      omega
    · exact Nat.le_refl _
  · split
    · dsimp only
      simp only [List.tail_cons, List.length_cons]
      omega
    · exact Nat.le_refl _
  · split
    · dsimp only
      simp only [List.tail_cons, List.length_cons]
      omega
    · exact Nat.le_refl _
  -- '"' : terminated and unterminated strings
  · have hs := stringBody_rest_le rest line
    split
    · rename_i r' heq
      rw [heq] at hs
      dsimp only
      simp only [List.length_cons] at hs
      omega
    · dsimp only
      simp
  -- default: number, identifier, illegal
  · split
    · -- digit
      have h1 := dropWhile_length_le isDigit rest
      split
      · rename_i d tl heq
        split
        · rename_i hd
          rw [heq] at h1
          dsimp only
          have h2 := dropWhile_length_le isDigit (('.' :: d :: tl).tail)
          rw [heq]
          simp only [List.tail_cons, List.length_cons] at *
          omega
        · dsimp only
          exact dropWhile_length_le _ _
      · dsimp only
        exact dropWhile_length_le _ _
    · split
      · dsimp only
        exact dropWhile_length_le _ _
      · exact Nat.le_refl _



theorem lookup_mem_values (l : List (String × TokenType)) (k : String) (v : TokenType)
    (h : l.lookup k = some v) : v ∈ l.map Prod.snd := by
  induction l with
  | nil => simp [List.lookup] at h
  | cons a tl ih =>
    cases hk : (k == a.1) with
    | true =>
      simp only [List.lookup, hk, Option.some.injEq] at h
      simp [← h]
    | false =>
      simp only [List.lookup, hk] at h
      simp [ih h]

theorem keywordType_ne_EOF (s : String) : keywordType s ≠ EOF := by
  unfold keywordType
  cases h : Keywords.lookup s with
  | none => decide
  | some v =>
    have hv := lookup_mem_values _ _ _ h
    have hall : ∀ w ∈ Keywords.map Prod.snd, w ≠ EOF := by decide
    simpa using hall v hv

theorem scanToken_type_ne_EOF (c : Char) (rest : List Char) (line : Nat) (t : Token)
    (h : (scanToken c rest line).1 = some t) : t.type ≠ EOF := by
  unfold scanToken at h
  dsimp only at h
  split at h
  any_goals first
  | (simp at h; subst h; simp [LEFT_PAREN, RIGHT_PAREN, LEFT_BRACE, RIGHT_BRACE, COMMA, DOT, MINUS, PLUS, SEMICOLON, SLASH, STAR, BANG, BANG_EQUAL, EQUAL, EQUAL_EQUAL, GREATER, GREATER_EQUAL, LESS, LESS_EQUAL, STRING, NUMBER, ILLEGAL, EOF])
  | simp at h
  -- '/' : line comment, block comment, plain slash
  · split at h
    · simp at h
    · split at h
      · simp at h
      · simp at h; subst h; simp [ILLEGAL, EOF]
    · simp at h; subst h; simp [SLASH, EOF]
  -- '!' '=' '<' '>'
  · split at h <;> (simp at h; subst h; simp [BANG, BANG_EQUAL, EOF])
  · split at h <;> (simp at h; subst h; simp [EQUAL, EQUAL_EQUAL, EOF])
  · split at h <;> (simp at h; subst h; simp [LESS, LESS_EQUAL, EOF])
  · split at h <;> (simp at h; subst h; simp [GREATER, GREATER_EQUAL, EOF])
  -- '"'
  · split at h <;> (simp at h; subst h; simp [STRING, ILLEGAL, EOF])
  -- default: number, identifier, illegal
  · split at h
    · split at h
      · split at h <;> (simp at h; subst h; simp [NUMBER, EOF])
      · simp at h; subst h; simp [NUMBER, EOF]
    · split at h
      · simp at h
        subst h
        simpa using keywordType_ne_EOF _
      · simp at h; subst h; simp [ILLEGAL, EOF]



theorem scanLoop_spec (fuel : Nat) :
    ∀ (rem : List Char) (line : Nat) (acc : List Token),
      rem.length < fuel →
      ∃ tail, scanLoop fuel rem line acc = some (acc ++ tail) ∧ tail ≠ [] ∧
        (∃ ln, tail.getLast? = some { type := EOF, lexeme := "", literal := .nil, line := ln, column := 0 }) ∧
        ∀ t ∈ tail.dropLast, t.type ≠ EOF := by
  induction fuel with
  | zero => intro rem line acc h; omega
  | succ n ih =>
    intro rem line acc h
    cases rem with
    | nil =>
      refine ⟨[{ type := EOF, lexeme := "", literal := .nil, line := line, column := 0 }],
        by simp [scanLoop], by simp, ⟨line, by simp⟩, by simp⟩
    | cons c rest =>
      have hlen : (scanToken c rest line).2.1.length < n := by
        have h1 := scanToken_rest_le c rest line
        simp only [List.length_cons] at h
        omega
      obtain ⟨tail, h1, h2, h3, h4⟩ := ih (scanToken c rest line).2.1
        (scanToken c rest line).2.2 (acc ++ (scanToken c rest line).1.toList) hlen
      refine ⟨(scanToken c rest line).1.toList ++ tail, ?_, by simp [h2], ?_, ?_⟩
      · rw [scanLoop]
        simpa [List.append_assoc] using h1
      · obtain ⟨ln, hl⟩ := h3
        refine ⟨ln, ?_⟩
        rw [List.getLast?_append_of_ne_nil _ h2]
        exact hl
      · intro t ht
        rw [List.dropLast_append_of_ne_nil _ h2] at ht
        rcases List.mem_append.mp ht with hmem | hmem
        · have : (scanToken c rest line).1 = some t := by
            simpa using hmem
          exact scanToken_type_ne_EOF c rest line t this
        · exact h4 t hmem

/-- C8: for every input string, ScanTokens produces a token list that is
non-empty, whose last element is an EOF token with empty lexeme and nil
literal, and in which EOF appears only as that last element. -/
theorem scan_tokens_eof_terminated (source : List Char) :
    ∃ toks, ScanTokens source = some toks ∧ toks ≠ [] ∧
      (∃ ln, toks.getLast? = some { type := EOF, lexeme := "", literal := .nil, line := ln, column := 0 }) ∧
      (∀ t ∈ toks.dropLast, t.type ≠ EOF) ∧ EOFterminated toks := by
  obtain ⟨tail, h1, h2, h3, h4⟩ := scanLoop_spec (source.length + 1) source 1 [] (by omega)
  refine ⟨tail, by simpa [ScanTokens] using h1, h2, h3, h4, ?_⟩
  obtain ⟨ln, hl⟩ := h3
  exact ⟨_, hl, rfl⟩

theorem advance_tokens (p : Parser) : (p.advance).2.tokens = p.tokens := by
  simp only [Parser.advance]
  split <;> rfl

theorem peek_lt_of_ne_eof (p : Parser) (hE : EOFterminated p.tokens) (hR : inRange p)
    (hne : p.peek.type ≠ EOF) : p.current + 1 < p.tokens.length := by
  obtain ⟨t, hlast, htype⟩ := hE
  rcases Nat.lt_or_ge (p.current + 1) p.tokens.length with hlt | hge
  · exact hlt
  · exfalso
    have hRn : p.current < p.tokens.length := hR
    have hcur : p.current = p.tokens.length - 1 := by omega
    have h1 : p.tokens[p.tokens.length - 1]? = some t := by
      rw [← List.getLast?_eq_getElem?]
      exact hlast
    have h2 : p.tokens[p.current]? = some t := by rw [hcur]; exact h1
    have h3 : p.peek = t := by
      unfold Parser.peek
      rw [List.getD_eq_getElem _ _ hRn]
      rw [List.getElem?_eq_getElem hRn] at h2
      exact Option.some.inj h2
    exact hne (h3 ▸ htype)

theorem advance_inRange (p : Parser) (hE : EOFterminated p.tokens) (hR : inRange p) :
    inRange (p.advance).2 := by
  by_cases hend : p.isAtEnd
  · simp only [Parser.advance, hend, if_true]
    exact hR
  · simp only [Parser.advance, hend, if_false]
    have hne : p.peek.type ≠ EOF := by
      simpa [Parser.isAtEnd] using hend
    exact peek_lt_of_ne_eof p hE hR hne

theorem advance_at_eof (p : Parser) (h : p.peek.type = EOF) : (p.advance).2 = p := by
  simp [Parser.advance, Parser.isAtEnd, h]

theorem matchTypes_tokens (p : Parser) (tys : List TokenType) :
    (p.matchTypes tys).2.tokens = p.tokens := by
  induction tys with
  | nil => rfl
  | cons t ts ih =>
    simp only [Parser.matchTypes]
    split
    · exact advance_tokens p
    · exact ih

theorem matchTypes_inRange (p : Parser) (tys : List TokenType)
    (hE : EOFterminated p.tokens) (hR : inRange p) :
    inRange (p.matchTypes tys).2 := by
  induction tys with
  | nil => exact hR
  | cons t ts ih =>
    simp only [Parser.matchTypes]
    split
    · exact advance_inRange p hE hR
    · exact ih

theorem consume_inv (p : Parser) (t : TokenType) (m : String) (tok : Token) (p' : Parser)
    (hE : EOFterminated p.tokens) (hR : inRange p)
    (h : p.consume t m = .ok (tok, p')) : inRange p' ∧ p'.tokens = p.tokens := by
  unfold Parser.consume at h
  split at h
  · have h1 : p.advance = (tok, p') := by
      injection h
    have h2 : p' = (p.advance).2 := by rw [h1]
    rw [h2]
    exact ⟨advance_inRange p hE hR, advance_tokens p⟩
  · simp at h


theorem matchTypes_case_inv (p p1 : Parser) (tys : List TokenType) (b : Bool)
    (hE : EOFterminated p.tokens) (hR : inRange p)
    (heq : p.matchTypes tys = (b, p1)) : inRange p1 ∧ p1.tokens = p.tokens := by
  constructor
  · have h := matchTypes_inRange p tys hE hR
    rw [heq] at h
    exact h
  · have h := matchTypes_tokens p tys
    rw [heq] at h
    exact h

theorem grammar_inv (fuel : Nat) :
    (∀ p e p', EOFterminated p.tokens → inRange p →
      expression fuel p = .ok e p' → inRange p' ∧ p'.tokens = p.tokens) ∧
    (∀ p e p', EOFterminated p.tokens → inRange p →
      equality fuel p = .ok e p' → inRange p' ∧ p'.tokens = p.tokens) ∧
    (∀ p e0 e p', EOFterminated p.tokens → inRange p →
      equalityLoop fuel e0 p = .ok e p' → inRange p' ∧ p'.tokens = p.tokens) ∧
    (∀ p e p', EOFterminated p.tokens → inRange p →
      comparison fuel p = .ok e p' → inRange p' ∧ p'.tokens = p.tokens) ∧
    (∀ p e0 e p', EOFterminated p.tokens → inRange p →
      comparisonLoop fuel e0 p = .ok e p' → inRange p' ∧ p'.tokens = p.tokens) ∧
    (∀ p e p', EOFterminated p.tokens → inRange p →
      term fuel p = .ok e p' → inRange p' ∧ p'.tokens = p.tokens) ∧
    (∀ p e0 e p', EOFterminated p.tokens → inRange p →
      termLoop fuel e0 p = .ok e p' → inRange p' ∧ p'.tokens = p.tokens) ∧
    (∀ p e p', EOFterminated p.tokens → inRange p →
      factor fuel p = .ok e p' → inRange p' ∧ p'.tokens = p.tokens) ∧
    (∀ p e0 e p', EOFterminated p.tokens → inRange p →
      factorLoop fuel e0 p = .ok e p' → inRange p' ∧ p'.tokens = p.tokens) ∧
    (∀ p e p', EOFterminated p.tokens → inRange p →
      unary fuel p = .ok e p' → inRange p' ∧ p'.tokens = p.tokens) ∧
    (∀ p e p', EOFterminated p.tokens → inRange p →
      primary fuel p = .ok e p' → inRange p' ∧ p'.tokens = p.tokens) := by
  induction fuel with
  | zero =>
    refine ⟨?_, ?_, ?_, ?_, ?_, ?_, ?_, ?_, ?_, ?_, ?_⟩ <;> intros <;>
      simp_all [expression, equality, equalityLoop, comparison, comparisonLoop,
        term, termLoop, factor, factorLoop, unary, primary]
  | succ n ih =>
    obtain ⟨iE, iQ, iQL, iC, iCL, iT, iTL, iF, iFL, iU, iP⟩ := ih
    refine ⟨?_, ?_, ?_, ?_, ?_, ?_, ?_, ?_, ?_, ?_, ?_⟩
    -- expression
    · intro p e p' hE hR h
      simp only [expression] at h
      exact iQ p e p' hE hR h
    · intro p e p' hE hR h
      simp only [equality] at h
      split at h
      · rename_i e1 p1 heq
        obtain ⟨hR1, hT1⟩ := iC p e1 p1 hE hR heq
        have hE1 : EOFterminated p1.tokens := by rw [hT1]; exact hE
        obtain ⟨hR2, hT2⟩ := iQL p1 e1 e p' hE1 hR1 h
        exact ⟨hR2, hT2.trans hT1⟩
      · rename_i r hno
        exact (hno _ _ h).elim
    · intro p e0 e p' hE hR h
      simp only [equalityLoop] at h
      split at h
      · rename_i p1 heq
        obtain ⟨hR1, hT1⟩ := matchTypes_case_inv p p1 _ _ hE hR heq
        have hE1 : EOFterminated p1.tokens := by rw [hT1]; exact hE
        split at h
        · rename_i right p2 heq2
          obtain ⟨hR2, hT2⟩ := iC p1 right p2 hE1 hR1 heq2
          have hE2 : EOFterminated p2.tokens := by rw [hT2, hT1]; exact hE
          obtain ⟨hR3, hT3⟩ := iQL p2 _ e p' hE2 hR2 h
          exact ⟨hR3, by rw [hT3, hT2, hT1]⟩
        · rename_i r hno
          exact (hno _ _ h).elim
      · rename_i p1 heq
        obtain ⟨hR1, hT1⟩ := matchTypes_case_inv p p1 _ _ hE hR heq
        injection h with he hp
        subst hp
        exact ⟨hR1, hT1⟩
    · intro p e p' hE hR h
      simp only [comparison] at h
      split at h
      · rename_i e1 p1 heq
        obtain ⟨hR1, hT1⟩ := iT p e1 p1 hE hR heq
        have hE1 : EOFterminated p1.tokens := by rw [hT1]; exact hE
        obtain ⟨hR2, hT2⟩ := iCL p1 e1 e p' hE1 hR1 h
        exact ⟨hR2, hT2.trans hT1⟩
      · rename_i r hno
        exact (hno _ _ h).elim
    · intro p e0 e p' hE hR h
      simp only [comparisonLoop] at h
      split at h
      · rename_i p1 heq
        obtain ⟨hR1, hT1⟩ := matchTypes_case_inv p p1 _ _ hE hR heq
        have hE1 : EOFterminated p1.tokens := by rw [hT1]; exact hE
        split at h
        · rename_i right p2 heq2
          obtain ⟨hR2, hT2⟩ := iT p1 right p2 hE1 hR1 heq2
          have hE2 : EOFterminated p2.tokens := by rw [hT2, hT1]; exact hE
          obtain ⟨hR3, hT3⟩ := iCL p2 _ e p' hE2 hR2 h
          exact ⟨hR3, by rw [hT3, hT2, hT1]⟩
        · rename_i r hno
          exact (hno _ _ h).elim
      · rename_i p1 heq
        obtain ⟨hR1, hT1⟩ := matchTypes_case_inv p p1 _ _ hE hR heq
        injection h with he hp
        subst hp
        exact ⟨hR1, hT1⟩
    · intro p e p' hE hR h
      simp only [term] at h
      split at h
      · rename_i e1 p1 heq
        obtain ⟨hR1, hT1⟩ := iF p e1 p1 hE hR heq
        have hE1 : EOFterminated p1.tokens := by rw [hT1]; exact hE
        obtain ⟨hR2, hT2⟩ := iTL p1 e1 e p' hE1 hR1 h
        exact ⟨hR2, hT2.trans hT1⟩
      · rename_i r hno
        exact (hno _ _ h).elim
    · intro p e0 e p' hE hR h
      simp only [termLoop] at h
      split at h
      · rename_i p1 heq
        obtain ⟨hR1, hT1⟩ := matchTypes_case_inv p p1 _ _ hE hR heq
        have hE1 : EOFterminated p1.tokens := by rw [hT1]; exact hE
        split at h
        · rename_i right p2 heq2
          obtain ⟨hR2, hT2⟩ := iF p1 right p2 hE1 hR1 heq2
          have hE2 : EOFterminated p2.tokens := by rw [hT2, hT1]; exact hE
          obtain ⟨hR3, hT3⟩ := iTL p2 _ e p' hE2 hR2 h
          exact ⟨hR3, by rw [hT3, hT2, hT1]⟩
        · rename_i r hno
          exact (hno _ _ h).elim
      · rename_i p1 heq
        obtain ⟨hR1, hT1⟩ := matchTypes_case_inv p p1 _ _ hE hR heq
        injection h with he hp
        subst hp
        exact ⟨hR1, hT1⟩
    · intro p e p' hE hR h
      simp only [factor] at h
      split at h
      · rename_i e1 p1 heq
        obtain ⟨hR1, hT1⟩ := iU p e1 p1 hE hR heq
        have hE1 : EOFterminated p1.tokens := by rw [hT1]; exact hE
        obtain ⟨hR2, hT2⟩ := iFL p1 e1 e p' hE1 hR1 h
        exact ⟨hR2, hT2.trans hT1⟩
      · rename_i r hno
        exact (hno _ _ h).elim
    · intro p e0 e p' hE hR h
      simp only [factorLoop] at h
      split at h
      · rename_i p1 heq
        obtain ⟨hR1, hT1⟩ := matchTypes_case_inv p p1 _ _ hE hR heq
        have hE1 : EOFterminated p1.tokens := by rw [hT1]; exact hE
        split at h
        · rename_i right p2 heq2
          obtain ⟨hR2, hT2⟩ := iU p1 right p2 hE1 hR1 heq2
          have hE2 : EOFterminated p2.tokens := by rw [hT2, hT1]; exact hE
          obtain ⟨hR3, hT3⟩ := iFL p2 _ e p' hE2 hR2 h
          exact ⟨hR3, by rw [hT3, hT2, hT1]⟩
        · rename_i r hno
          exact (hno _ _ h).elim
      · rename_i p1 heq
        obtain ⟨hR1, hT1⟩ := matchTypes_case_inv p p1 _ _ hE hR heq
        injection h with he hp
        subst hp
        exact ⟨hR1, hT1⟩
    · intro p e p' hE hR h
      simp only [unary] at h
      split at h
      · rename_i p1 heq
        obtain ⟨hR1, hT1⟩ := matchTypes_case_inv p p1 _ _ hE hR heq
        have hE1 : EOFterminated p1.tokens := by rw [hT1]; exact hE
        split at h
        · rename_i right p2 heq2
          injection h with he hp
          subst hp
          obtain ⟨hR2, hT2⟩ := iU p1 right _ hE1 hR1 heq2
          exact ⟨hR2, hT2.trans hT1⟩
        · rename_i r hno
          exact (hno _ _ h).elim
      · rename_i p1 heq
        obtain ⟨hR1, hT1⟩ := matchTypes_case_inv p p1 _ _ hE hR heq
        have hE1 : EOFterminated p1.tokens := by rw [hT1]; exact hE
        obtain ⟨hR2, hT2⟩ := iP p1 e p' hE1 hR1 h
        exact ⟨hR2, hT2.trans hT1⟩
    · intro p e p' hE hR h
      simp only [primary] at h
      split at h
      · rename_i p1 heq
        obtain ⟨hR1, hT1⟩ := matchTypes_case_inv p p1 _ _ hE hR heq
        injection h with he hp
        subst hp
        exact ⟨hR1, hT1⟩
      · rename_i p1 heq1
        obtain ⟨hR1, hT1⟩ := matchTypes_case_inv p p1 _ _ hE hR heq1
        have hE1 : EOFterminated p1.tokens := by rw [hT1]; exact hE
        split at h
        · rename_i p2 heq2
          obtain ⟨hR2, hT2⟩ := matchTypes_case_inv p1 p2 _ _ hE1 hR1 heq2
          injection h with he hp
          subst hp
          exact ⟨hR2, hT2.trans hT1⟩
        · rename_i p2 heq2
          obtain ⟨hR2, hT2⟩ := matchTypes_case_inv p1 p2 _ _ hE1 hR1 heq2
          have hE2 : EOFterminated p2.tokens := by rw [hT2, hT1]; exact hE
          split at h
          · rename_i p3 heq3
            obtain ⟨hR3, hT3⟩ := matchTypes_case_inv p2 p3 _ _ hE2 hR2 heq3
            injection h with he hp
            subst hp
            exact ⟨hR3, by rw [hT3, hT2, hT1]⟩
          · rename_i p3 heq3
            obtain ⟨hR3, hT3⟩ := matchTypes_case_inv p2 p3 _ _ hE2 hR2 heq3
            have hE3 : EOFterminated p3.tokens := by rw [hT3, hT2, hT1]; exact hE
            split at h
            · rename_i p4 heq4
              obtain ⟨hR4, hT4⟩ := matchTypes_case_inv p3 p4 _ _ hE3 hR3 heq4
              injection h with he hp
              subst hp
              exact ⟨hR4, by rw [hT4, hT3, hT2, hT1]⟩
            · rename_i p4 heq4
              obtain ⟨hR4, hT4⟩ := matchTypes_case_inv p3 p4 _ _ hE3 hR3 heq4
              have hE4 : EOFterminated p4.tokens := by rw [hT4, hT3, hT2, hT1]; exact hE
              split at h
              · rename_i p5 heq5
                obtain ⟨hR5, hT5⟩ := matchTypes_case_inv p4 p5 _ _ hE4 hR4 heq5
                have hE5 : EOFterminated p5.tokens := by rw [hT5, hT4, hT3, hT2, hT1]; exact hE
                split at h
                · rename_i e6 p6 heq6
                  obtain ⟨hR6, hT6⟩ := iE p5 e6 p6 hE5 hR5 heq6
                  have hE6 : EOFterminated p6.tokens := by rw [hT6, hT5, hT4, hT3, hT2, hT1]; exact hE
                  split at h
                  · rename_i tok p7 heq7
                    injection h with he hp
                    subst hp
                    obtain ⟨hR7, hT7⟩ := consume_inv p6 RIGHT_PAREN _ tok _ hE6 hR6 heq7
                    exact ⟨hR7, by rw [hT7, hT6, hT5, hT4, hT3, hT2, hT1]⟩
                  · rename_i er heq7
                    simp at h
                · rename_i r hno
                  exact (hno _ _ h).elim
              · rename_i p5 heq5
                simp at h


/-- C7: for every EOF-terminated token sequence the cursor invariant
`0 <= current < len(tokens)` is preserved by the cursor primitives and
throughout any parse: `advance` keeps the cursor in bounds and never
moves it past the final EOF token (once the current token is EOF it does
not increment), `match` keeps it in bounds, and any successful
`expression` derivation from the start state ends — and hence stays,
since `advance` is the only primitive that moves the cursor — in
bounds; `peek`, `previous` and `check` read without moving the
cursor. -/
theorem cursor_invariant (ts : List Token) (hE : EOFterminated ts) :
    (∀ p : Parser, p.tokens = ts → inRange p →
      inRange (p.advance).2 ∧ (p.advance).2.tokens = ts) ∧
    (∀ p : Parser, p.tokens = ts → p.peek.type = EOF →
      (p.advance).2 = p) ∧
    (∀ (p : Parser) (tys : List TokenType), p.tokens = ts → inRange p →
      inRange (p.matchTypes tys).2 ∧ (p.matchTypes tys).2.tokens = ts) ∧
    (∀ fuel e p', expression fuel (ParserNew ts) = .ok e p' →
      inRange p' ∧ p'.tokens = ts) := by
  have hEp : ∀ p : Parser, p.tokens = ts → EOFterminated p.tokens :=
    fun p hp => by rw [hp]; exact hE
  refine ⟨?_, ?_, ?_, ?_⟩
  · intro p hp hR
    exact ⟨advance_inRange p (hEp p hp) hR, (advance_tokens p).trans hp⟩
  · intro p hp hpe
    exact advance_at_eof p hpe
  · intro p tys hp hR
    exact ⟨matchTypes_inRange p tys (hEp p hp) hR,
      (matchTypes_tokens p tys).trans hp⟩
  · intro fuel e p' h
    have hR0 : inRange (ParserNew ts) := by
      obtain ⟨t, hlast, _⟩ := hE
      cases ts with
      | nil => simp at hlast
      | cons a l => simp [ParserNew, inRange]
    exact (grammar_inv fuel).1 (ParserNew ts) e p' hE hR0 h

/-- Witness for C7: on the tokens of `1` the invariant holds through
advance, a match, and a full parse; advance at the EOF token does not
move the cursor. -/
theorem cursor_invariant_witness :
    inRange ((Parser.advance { tokens := [numTok 1, eofTok], current := 0 }).2) ∧
    (Parser.advance { tokens := [numTok 1, eofTok], current := 1 }).2
      = { tokens := [numTok 1, eofTok], current := 1 } ∧
    inRange ((Parser.matchTypes { tokens := [numTok 1, eofTok], current := 0 } [NUMBER]).2) ∧
    expression 8 (ParserNew [numTok 1, eofTok])
      = .ok (.Literal (.num 1)) { tokens := [numTok 1, eofTok], current := 1 } ∧
    inRange ({ tokens := [numTok 1, eofTok], current := 1 } : Parser) := by
  have hE : EOFterminated [numTok 1, eofTok] := ⟨eofTok, rfl, rfl⟩
  obtain ⟨h1, h2, h3, h4⟩ := cursor_invariant [numTok 1, eofTok] hE
  refine ⟨(h1 _ rfl (by decide)).1, h2 _ rfl (by decide),
    (h3 _ [NUMBER] rfl (by decide)).1, rfl, ?_⟩
  exact (h4 8 (.Literal (.num 1)) { tokens := [numTok 1, eofTok], current := 1 } rfl).1

end GoLex
